import Mathlib

/-
Verification of the convergence-diagnostics module `la_forge/diagnostics.py`
(functions `plot_chains`, `compute_neff`, `grubin`, `pp_plot`) against its
natural-language specification.

Modelling conventions:
* MCMC samples are rationals; a chain matrix is a list of rows, each row a
  list of column entries (numpy `data[i, j]` becomes `(data.getD i []).getD j 0`).
* All arithmetic is exact (ℚ), so the statements are about the algebra the
  code performs; `np.sqrt` on a nonnegative quantity is modelled by
  `Real.sqrt` of the exactly computed radicand.
* Python exceptions that escape a function are an `Except.error`; the
  "print a diagnostic and return None" paths are `Except.ok none`.
-/

/-! ## Basic matrix access -/

/-- Numpy-style read of a 2-d array entry: `data[i][j]`, with out-of-range
reads mapped to `0` (all theorems only use in-range indices). -/
def entry (data : List (List ℚ)) (i j : Nat) : ℚ := (data.getD i []).getD j 0

/-- `row[:-2]`: a row with its last two columns cut off
(`grubin`, diagnostics.py lines 389/397). -/
def dropLast2 (row : List ℚ) : List ℚ := row.take (row.length - 2)

/-! ## The `grubin` split R-hat computation (diagnostics.py lines 368-416) -/

/-- The burn-in `grubin` settles on: `0` when `np.split` succeeds in the
`try` (that is, when `M` divides the row count `R`); otherwise the `except`
branch computes `P = (R - 0) / M` (floor) and `X = R - M * P` and sets
`burn = X` (lines 387-395). -/
def grubinBurn (R M : Nat) : Nat := if R % M = 0 then 0 else R - M * (R / M)

/-- `N = len(data[burn:, 0])` (line 399): the total number of retained
rows, after the burn-in adjustment. -/
def grubinN (data : List (List ℚ)) (M : Nat) : Nat :=
  data.length - grubinBurn data.length M

/-- `data[burn:, :-2]` (line 397): retained rows, trailing two columns cut. -/
def grubinData (data : List (List ℚ)) (M : Nat) : List (List ℚ) :=
  (data.drop (grubinBurn data.length M)).map dropLast2

/-- `np.split(arr, M)`: `M` contiguous blocks, each of `len(arr) / M` rows. -/
def splitBlocks (l : List (List ℚ)) (M : Nat) : List (List (List ℚ)) :=
  (List.range M).map (fun m => (l.drop (m * (l.length / M))).take (l.length / M))

/-- The `M` sub-chains `grubin` works on (`data_split`, line 397). -/
def grubinBlocks (data : List (List ℚ)) (M : Nat) : List (List (List ℚ)) :=
  splitBlocks (grubinData data M) M

/-- Mean of column `p` of one block (one entry of `np.mean(data, axis=1)`). -/
def colMean (block : List (List ℚ)) (p : Nat) : ℚ :=
  ((block.map (fun row => row.getD p 0)).sum) / block.length

/-- `theta_bar_dotm[m, p]` (line 404): mean of column `p` of sub-chain `m`. -/
def thetaBarM (data : List (List ℚ)) (M m p : Nat) : ℚ :=
  colMean ((grubinBlocks data M).getD m []) p

/-- `theta_bar_dotdot[p]` (line 405): mean over the `M` sub-chain means. -/
def thetaBarDD (data : List (List ℚ)) (M p : Nat) : ℚ :=
  (((List.range M).map (fun m => thetaBarM data M m p)).sum) / (M : ℚ)

/-- `B[p] = N / (M - 1) * np.sum((theta_bar_dotm - theta_bar_dotdot)**2, axis=0)`
(line 406); `N` here is `grubinN`, the total retained row count. -/
def grubinB (data : List (List ℚ)) (M p : Nat) : ℚ :=
  (grubinN data M : ℚ) / ((M : ℚ) - 1) *
    (((List.range M).map
        (fun m => (thetaBarM data M m p - thetaBarDD data M p) ^ 2)).sum)

/-- `sm_sq[m, p] = 1 / (N - 1) * np.sum((data - theta_bar_dotm[:, None, :])**2, axis=1)`
(line 409); again `N` is the total retained row count. -/
def smSq (data : List (List ℚ)) (M m p : Nat) : ℚ :=
  1 / ((grubinN data M : ℚ) - 1) *
    ((((grubinBlocks data M).getD m []).map
        (fun row => (row.getD p 0 - thetaBarM data M m p) ^ 2)).sum)

/-- `W[p] = 1 / M * np.sum(sm_sq, axis=0)` (line 410). -/
def grubinW (data : List (List ℚ)) (M p : Nat) : ℚ :=
  1 / (M : ℚ) * (((List.range M).map (fun m => smSq data M m p)).sum)

/-- `var_post[p] = (N - 1) / N * W + 1 / N * B` (line 412). -/
def grubinVarPost (data : List (List ℚ)) (M p : Nat) : ℚ :=
  ((grubinN data M : ℚ) - 1) / (grubinN data M : ℚ) * grubinW data M p +
    1 / (grubinN data M : ℚ) * grubinB data M p

/-- The exact radicand of line 413: `var_post / W`, i.e. `Rhat ^ 2`. -/
def grubinRhatSq (data : List (List ℚ)) (M p : Nat) : ℚ :=
  grubinVarPost data M p / grubinW data M p

/-- `Rhat[p] = np.sqrt(var_post / W)` (line 413). -/
noncomputable def grubinRhat (data : List (List ℚ)) (M p : Nat) : ℝ :=
  Real.sqrt ((grubinRhatSq data M p : ℚ) : ℝ)

/-! ## The spec's closed-form split R-hat formulas

Two families of definitions written from the specification text, to be
compared with the pipeline above.  `specNb` is the number of rows per
block.  The `...PerBlock` family is claim C1's reading, in which the `N`
of the formulas is the per-block row count; the `...Total` family is the
same formulas with `N` the total retained row count `grubinN`. -/

/-- Rows per block after the split: `grubinN / M`. -/
def specNb (data : List (List ℚ)) (M : Nat) : Nat := grubinN data M / M

/-- Mean of column `p` of block `m`, written directly on the retained
matrix: block `m` holds rows `m * Nb, ..., m * Nb + Nb - 1`. -/
def specMean (data : List (List ℚ)) (M m p : Nat) : ℚ :=
  (∑ n ∈ Finset.range (specNb data M),
      entry (grubinData data M) (m * specNb data M + n) p) / (specNb data M : ℚ)

/-- Grand mean over the `M` block means. -/
def specGrand (data : List (List ℚ)) (M p : Nat) : ℚ :=
  (∑ m ∈ Finset.range M, specMean data M m p) / (M : ℚ)

/-- `B[p] = (N / (M - 1)) * Σ_m (θ̄_m - θ̄)²` with `N` the total retained
row count. -/
def specBTotal (data : List (List ℚ)) (M p : Nat) : ℚ :=
  (grubinN data M : ℚ) / ((M : ℚ) - 1) *
    ∑ m ∈ Finset.range M, (specMean data M m p - specGrand data M p) ^ 2

/-- `sm_sq[m, p] = (Σ_n (x[m,n,p] - θ̄_m)²) / (N - 1)` with `N` the total
retained row count. -/
def specSmSqTotal (data : List (List ℚ)) (M m p : Nat) : ℚ :=
  (∑ n ∈ Finset.range (specNb data M),
      (entry (grubinData data M) (m * specNb data M + n) p -
        specMean data M m p) ^ 2) / ((grubinN data M : ℚ) - 1)

/-- `W[p]`: mean over blocks of `specSmSqTotal`. -/
def specWTotal (data : List (List ℚ)) (M p : Nat) : ℚ :=
  (∑ m ∈ Finset.range M, specSmSqTotal data M m p) / (M : ℚ)

/-- `var_post[p] = ((N - 1) / N) W + (1 / N) B`, `N` total. -/
def specVarPostTotal (data : List (List ℚ)) (M p : Nat) : ℚ :=
  ((grubinN data M : ℚ) - 1) / (grubinN data M : ℚ) * specWTotal data M p +
    1 / (grubinN data M : ℚ) * specBTotal data M p

/-- `B[p]` as claim C1 reads it: the leading `N` is the per-block row
count `specNb`. -/
def specBPerBlock (data : List (List ℚ)) (M p : Nat) : ℚ :=
  (specNb data M : ℚ) / ((M : ℚ) - 1) *
    ∑ m ∈ Finset.range M, (specMean data M m p - specGrand data M p) ^ 2

/-- The per-block sample variance of column `p` of block `m` (divisor is
the per-block row count minus one). -/
def specBlockVar (data : List (List ℚ)) (M m p : Nat) : ℚ :=
  (∑ n ∈ Finset.range (specNb data M),
      (entry (grubinData data M) (m * specNb data M + n) p -
        specMean data M m p) ^ 2) / ((specNb data M : ℚ) - 1)

/-- `W[p]` as claim C1 reads it: mean over blocks of the per-block sample
variances. -/
def specWPerBlock (data : List (List ℚ)) (M p : Nat) : ℚ :=
  (∑ m ∈ Finset.range M, specBlockVar data M m p) / (M : ℚ)

/-! ## Helper lemmas: list sums as indexed finite sums -/

lemma sum_map_range (g : Nat → ℚ) (M : Nat) :
    ((List.range M).map g).sum = ∑ m ∈ Finset.range M, g m := by
  induction M with
  | zero => simp
  | succ k ih => rw [List.range_succ, List.map_append, List.sum_append,
      Finset.sum_range_succ, ih]; simp

lemma sum_map_getD (l : List ℚ) (f : ℚ → ℚ) :
    (l.map f).sum = ∑ i ∈ Finset.range l.length, f (l.getD i 0) := by
  induction l with
  | nil => simp
  | cons a t ih =>
      rw [List.map_cons, List.sum_cons, ih, List.length_cons,
        Finset.sum_range_succ']
      simp [List.getD]
      exact add_comm _ _

lemma sum_map_getD_rows (l : List (List ℚ)) (f : List ℚ → ℚ) :
    (l.map f).sum = ∑ i ∈ Finset.range l.length, f (l.getD i []) := by
  induction l with
  | nil => simp
  | cons a t ih =>
      rw [List.map_cons, List.sum_cons, ih, List.length_cons,
        Finset.sum_range_succ']
      simp [List.getD]
      exact add_comm _ _

lemma getD_map_range (f : Nat → List (List ℚ)) (M m : Nat) (hm : m < M) :
    ((List.range M).map f).getD m [] = f m := by
  have hlen : m < ((List.range M).map f).length := by simpa using hm
  rw [List.getD_eq_getElem _ _ hlen, List.getElem_map, List.getElem_range]

/-! ## Helper lemmas: the burn-in and the block decomposition -/

lemma grubinBurn_eq_mod (R M : Nat) : grubinBurn R M = R % M := by
  unfold grubinBurn
  have h := Nat.div_add_mod R M
  by_cases h0 : R % M = 0
  · simp [h0]
  · simp [h0]; omega

lemma dvd_grubinN (data : List (List ℚ)) (M : Nat) :
    M ∣ grubinN data M := by
  unfold grubinN
  rw [grubinBurn_eq_mod]
  have h := Nat.div_add_mod data.length M
  exact ⟨data.length / M, by omega⟩

lemma length_grubinData (data : List (List ℚ)) (M : Nat) :
    (grubinData data M).length = grubinN data M := by
  simp [grubinData, grubinN]

lemma mul_specNb (data : List (List ℚ)) (M : Nat) :
    M * specNb data M = grubinN data M :=
  Nat.mul_div_cancel' (dvd_grubinN data M)

lemma grubinBlocks_getD (data : List (List ℚ)) (M m : Nat) (hm : m < M) :
    (grubinBlocks data M).getD m [] =
      ((grubinData data M).drop (m * specNb data M)).take (specNb data M) := by
  unfold grubinBlocks splitBlocks
  rw [getD_map_range _ _ _ hm, length_grubinData]
  rfl

lemma grubinBlock_length (data : List (List ℚ)) (M m : Nat)
    (hm : m < M) :
    ((grubinBlocks data M).getD m []).length = specNb data M := by
  rw [grubinBlocks_getD data M m hm, List.length_take, List.length_drop,
    length_grubinData]
  have h := mul_specNb data M
  have : m * specNb data M + specNb data M ≤ grubinN data M := by
    have : (m + 1) * specNb data M ≤ M * specNb data M :=
      Nat.mul_le_mul_right _ hm
    nlinarith [this]
  omega

lemma grubinBlock_entry (data : List (List ℚ)) (M m n : Nat)
    (hm : m < M) (hn : n < specNb data M) :
    ((grubinBlocks data M).getD m []).getD n [] =
      (grubinData data M).getD (m * specNb data M + n) [] := by
  have hlen := grubinBlock_length data M m hm
  rw [grubinBlocks_getD data M m hm] at hlen ⊢
  have hn1 : n < (((grubinData data M).drop (m * specNb data M)).take
      (specNb data M)).length := by rw [hlen]; exact hn
  rw [List.getD_eq_getElem _ _ hn1, List.getElem_take, List.getElem_drop]
  have hn2 : m * specNb data M + n < (grubinData data M).length := by
    have h1 : n < ((grubinData data M).drop (m * specNb data M)).length := by
      have := List.length_take (specNb data M)
        ((grubinData data M).drop (m * specNb data M))
      omega
    rw [List.length_drop] at h1
    omega
  rw [List.getD_eq_getElem _ _ hn2]

/-! ## Equating the pipeline with the closed-form (total-N) formulas -/

lemma thetaBarM_eq_specMean (data : List (List ℚ)) (M m p : Nat) (hm : m < M) :
    thetaBarM data M m p = specMean data M m p := by
  unfold thetaBarM specMean colMean
  rw [sum_map_getD_rows, grubinBlock_length data M m hm]
  congr 1
  apply Finset.sum_congr rfl
  intro n hn
  rw [grubinBlock_entry data M m n hm (Finset.mem_range.mp hn)]
  rfl

lemma thetaBarDD_eq_specGrand (data : List (List ℚ)) (M p : Nat) :
    thetaBarDD data M p = specGrand data M p := by
  unfold thetaBarDD specGrand
  rw [sum_map_range]
  congr 1
  exact Finset.sum_congr rfl fun m hm =>
    thetaBarM_eq_specMean data M m p (Finset.mem_range.mp hm)

lemma grubinB_eq_specBTotal (data : List (List ℚ)) (M p : Nat) :
    grubinB data M p = specBTotal data M p := by
  unfold grubinB specBTotal
  rw [sum_map_range]
  congr 1
  apply Finset.sum_congr rfl
  intro m hm
  rw [thetaBarM_eq_specMean data M m p (Finset.mem_range.mp hm),
    thetaBarDD_eq_specGrand]

lemma smSq_eq_specSmSqTotal (data : List (List ℚ)) (M m p : Nat) (hm : m < M) :
    smSq data M m p = specSmSqTotal data M m p := by
  unfold smSq specSmSqTotal
  rw [sum_map_getD_rows, grubinBlock_length data M m hm, one_div,
    inv_mul_eq_div]
  congr 1
  apply Finset.sum_congr rfl
  intro n hn
  rw [grubinBlock_entry data M m n hm (Finset.mem_range.mp hn),
    thetaBarM_eq_specMean data M m p hm]
  rfl

lemma grubinW_eq_specWTotal (data : List (List ℚ)) (M p : Nat) :
    grubinW data M p = specWTotal data M p := by
  unfold grubinW specWTotal
  rw [sum_map_range, one_div, inv_mul_eq_div]
  congr 1
  exact Finset.sum_congr rfl fun m hm =>
    smSq_eq_specSmSqTotal data M m p (Finset.mem_range.mp hm)

lemma grubinVarPost_eq_specVarPostTotal (data : List (List ℚ)) (M p : Nat) :
    grubinVarPost data M p = specVarPostTotal data M p := by
  unfold grubinVarPost specVarPostTotal
  rw [grubinW_eq_specWTotal, grubinB_eq_specBTotal]

/-- C1 (amended): for every chain matrix and split count `M ≥ 2`, `grubin`
computes, for each retained parameter `p`,
`B[p] = (N / (M - 1)) * Σ_m (θ̄_m[p] - θ̄[p])²`,
`W[p] = mean_m ((Σ_n (x[m,n,p] - θ̄_m[p])²) / (N - 1))`,
`var_post[p] = ((N - 1) / N) W[p] + (1 / N) B[p]` and
`Rhat[p] = sqrt(var_post[p] / W[p])`, where `N` is the TOTAL retained row
count (`M` times the rows per block), used both in `B` and in the `sm_sq`
divisor — not the per-block row count claimed by the spec. -/
theorem grubin_statistic_formulas (data : List (List ℚ)) (M p : Nat)
    (hM : 2 ≤ M) :
    grubinB data M p = specBTotal data M p ∧
    grubinW data M p = specWTotal data M p ∧
    grubinVarPost data M p = specVarPostTotal data M p ∧
    grubinRhat data M p =
      Real.sqrt (((specVarPostTotal data M p / specWTotal data M p : ℚ) : ℝ)) := by
  refine ⟨grubinB_eq_specBTotal data M p, grubinW_eq_specWTotal data M p,
    grubinVarPost_eq_specVarPostTotal data M p, ?_⟩
  unfold grubinRhat grubinRhatSq
  rw [grubinVarPost_eq_specVarPostTotal, grubinW_eq_specWTotal]

/-- A 4-row, 3-column chain (one retained parameter): rows 0,2,4,10. -/
def data0 : List (List ℚ) := [[0, 0, 0], [2, 0, 0], [4, 0, 0], [10, 0, 0]]

/-- C1 (counterexample): on `data0` with `M = 2`, the between-chain
variance `grubin` computes is 72, not the 36 obtained with `N` read as the
per-block row count, and its `W` is 10/3, not the mean 10 of the per-block
sample variances: the claim's reading of `N` is refuted. -/
theorem grubin_not_perBlock_N :
    grubinB data0 2 0 ≠ specBPerBlock data0 2 0 ∧
    grubinW data0 2 0 ≠ specWPerBlock data0 2 0 := by
  have hB : grubinB data0 2 0 = 72 := by
    norm_num [grubinB, thetaBarM, thetaBarDD, grubinBlocks, splitBlocks,
      grubinData, grubinBurn, dropLast2, colMean, grubinN, data0,
      List.range_succ, List.getD]
  have hBc : specBPerBlock data0 2 0 = 36 := by
    norm_num [specBPerBlock, specMean, specGrand, specNb, entry,
      grubinData, grubinBurn, dropLast2, grubinN, data0,
      Finset.sum_range_succ, List.getD]
  have hW : grubinW data0 2 0 = 10 / 3 := by
    norm_num [grubinW, smSq, thetaBarM, grubinBlocks, splitBlocks,
      grubinData, grubinBurn, dropLast2, colMean, grubinN, data0,
      List.range_succ, List.getD]
  have hWc : specWPerBlock data0 2 0 = 10 := by
    norm_num [specWPerBlock, specBlockVar, specMean, specNb, entry,
      grubinData, grubinBurn, dropLast2, grubinN, data0,
      Finset.sum_range_succ, List.getD]
  rw [hB, hBc, hW, hWc]
  norm_num

/-- Witness for `grubin_statistic_formulas` at `data0`, `M = 2`, `p = 0`. -/
theorem grubin_statistic_formulas_witness :
    2 ≤ 2 ∧
    (grubinB data0 2 0 = specBTotal data0 2 0 ∧
     grubinW data0 2 0 = specWTotal data0 2 0 ∧
     grubinVarPost data0 2 0 = specVarPostTotal data0 2 0 ∧
     grubinRhat data0 2 0 =
       Real.sqrt (((specVarPostTotal data0 2 0 / specWTotal data0 2 0 : ℚ) : ℝ))) :=
  ⟨by norm_num, grubin_statistic_formulas data0 2 0 (by norm_num)⟩

/-! ## Claim C2: the burn-in adjustment -/

/-- C2: for every row count `R` and split count `M ≥ 2`, the burn-in value
`grubin` uses before splitting satisfies `(R - burn) % M == 0` and
`0 <= burn < M`; it is the minimum number of leading rows whose removal
makes the retained row count divisible by `M`, and it is `0` when `R` is
already divisible by `M`. -/
theorem grubinBurn_minimal_divisor (R M : Nat) (hM : 2 ≤ M) :
    (R - grubinBurn R M) % M = 0 ∧
    grubinBurn R M < M ∧
    (∀ b, b < grubinBurn R M → (R - b) % M ≠ 0) ∧
    (M ∣ R → grubinBurn R M = 0) := by
  have hM0 : 0 < M := by omega
  rw [grubinBurn_eq_mod]
  have hdm := Nat.div_add_mod R M
  have hmod : R % M < M := Nat.mod_lt _ hM0
  refine ⟨?_, hmod, ?_, ?_⟩
  · have h1 : R - R % M = M * (R / M) := by omega
    rw [h1]
    exact Nat.mul_mod_right _ _
  · intro b hb
    have h1 : R - b = M * (R / M) + (R % M - b) := by omega
    rw [h1, Nat.mul_add_mod, Nat.mod_eq_of_lt (by omega)]
    omega
  · intro hdvd
    have : R % M = 0 := (Nat.dvd_iff_mod_eq_zero).mp hdvd
    omega

/-- Witness for `grubinBurn_minimal_divisor` at `R = 7`, `M = 3`
(`burn = 1`). -/
theorem grubinBurn_minimal_divisor_witness :
    2 ≤ 3 ∧
    ((7 - grubinBurn 7 3) % 3 = 0 ∧
     grubinBurn 7 3 < 3 ∧
     (∀ b, b < grubinBurn 7 3 → (7 - b) % 3 ≠ 0) ∧
     (3 ∣ 7 → grubinBurn 7 3 = 0)) :=
  ⟨by norm_num, grubinBurn_minimal_divisor 7 3 (by norm_num)⟩

/-! ## Claim C10: the divisors of the computation -/

/-- The four divisors of the `grubin` computation other than `W` itself:
`M - 1` (in `B`), `M` (in `theta_bar_dotdot` and `W`), `N` (in
`var_post`) and `N - 1` (in `sm_sq`), as rationals. -/
def grubinDivisorsNonzero (data : List (List ℚ)) (M : Nat) : Prop :=
  ((M : ℚ) - 1) ≠ 0 ∧ (M : ℚ) ≠ 0 ∧
    (grubinN data M : ℚ) ≠ 0 ∧ ((grubinN data M : ℚ) - 1) ≠ 0

/-- C10: under the precondition `M ≥ 2`, with at least `M` rows, more than
two columns and at least two rows per block, every divisor in the `grubin`
computation other than `W` itself — `M - 1`, `M`, `N` and `N - 1` — is
nonzero; for `M = 1` this guarantee does not hold (the `M - 1` divisor of
`B` is zero). -/
theorem grubin_divisors_nonzero (data : List (List ℚ)) (M : Nat)
    (hM : 2 ≤ M) (hrows : M ≤ data.length)
    (hcols : 2 < (data.getD 0 []).length)
    (hblock : 2 ≤ specNb data M) :
    grubinDivisorsNonzero data M ∧ ¬ grubinDivisorsNonzero data 1 := by
  have hMN := mul_specNb data M
  have hN : 4 ≤ grubinN data M := by nlinarith [hMN]
  constructor
  · refine ⟨?_, ?_, ?_, ?_⟩
    · have : (2 : ℚ) ≤ (M : ℚ) := by exact_mod_cast hM
      intro h; nlinarith [this]
    · have : (2 : ℚ) ≤ (M : ℚ) := by exact_mod_cast hM
      intro h; nlinarith [this]
    · have : (4 : ℚ) ≤ (grubinN data M : ℚ) := by exact_mod_cast hN
      intro h; nlinarith [this]
    · have : (4 : ℚ) ≤ (grubinN data M : ℚ) := by exact_mod_cast hN
      intro h; nlinarith [this]
  · intro h
    exact h.1 (by norm_num)

/-- Witness for `grubin_divisors_nonzero` on `data0` with `M = 2`. -/
theorem grubin_divisors_nonzero_witness :
    (2 ≤ 2 ∧ 2 ≤ data0.length ∧ 2 < (data0.getD 0 []).length ∧
      2 ≤ specNb data0 2) ∧
    (grubinDivisorsNonzero data0 2 ∧ ¬ grubinDivisorsNonzero data0 1) :=
  ⟨⟨by norm_num, by norm_num [data0], by norm_num [data0, List.getD],
    by norm_num [specNb, grubinN, grubinBurn, data0]⟩,
   grubin_divisors_nonzero data0 2 (by norm_num) (by norm_num [data0])
     (by norm_num [data0, List.getD])
     (by norm_num [specNb, grubinN, grubinBurn, data0])⟩

/-! ## Claim C3: a chain made of M identical blocks -/

lemma length_flatten_replicate (M : Nat) (b : List (List ℚ)) :
    ((List.replicate M b).flatten).length = M * b.length := by
  rw [List.length_flatten, List.map_replicate, List.sum_replicate, smul_eq_mul]

lemma drop_flatten_replicate (M m : Nat) (b : List (List ℚ)) (hm : m ≤ M) :
    ((List.replicate M b).flatten).drop (m * b.length) =
      (List.replicate (M - m) b).flatten := by
  induction m with
  | zero => simp
  | succ k ih =>
      have hk : k ≤ M := by omega
      have h1 : (k + 1) * b.length = k * b.length + b.length := by ring
      rw [h1, ← List.drop_drop, ih hk]
      have h2 : M - k = (M - (k + 1)) + 1 := by omega
      rw [h2, List.replicate_succ, List.flatten_cons, List.drop_left]

lemma take_flatten_replicate (k : Nat) (b : List (List ℚ)) (hk : 0 < k) :
    ((List.replicate k b).flatten).take b.length = b := by
  obtain ⟨j, rfl⟩ : ∃ j, k = j + 1 := ⟨k - 1, by omega⟩
  rw [List.replicate_succ, List.flatten_cons, List.take_left]

lemma grubinBurn_replicate (M : Nat) (b : List (List ℚ)) :
    grubinBurn ((List.replicate M b).flatten).length M = 0 := by
  rw [length_flatten_replicate, grubinBurn_eq_mod, Nat.mul_mod_right]

lemma grubinN_replicate (M : Nat) (b : List (List ℚ)) :
    grubinN ((List.replicate M b).flatten) M = M * b.length := by
  unfold grubinN
  rw [grubinBurn_replicate, length_flatten_replicate]
  omega

lemma grubinData_replicate (M : Nat) (b : List (List ℚ)) :
    grubinData ((List.replicate M b).flatten) M =
      (List.replicate M (b.map dropLast2)).flatten := by
  unfold grubinData
  rw [grubinBurn_replicate, List.drop_zero, List.map_flatten,
    List.map_replicate]

lemma specNb_replicate (M : Nat) (b : List (List ℚ)) (hM : 0 < M) :
    specNb ((List.replicate M b).flatten) M = b.length := by
  unfold specNb
  rw [grubinN_replicate, Nat.mul_div_cancel_left _ hM]

lemma grubinBlocks_replicate (M m : Nat) (b : List (List ℚ)) (hM : 0 < M)
    (hm : m < M) :
    (grubinBlocks ((List.replicate M b).flatten) M).getD m [] =
      b.map dropLast2 := by
  rw [grubinBlocks_getD _ _ _ hm, grubinData_replicate,
    specNb_replicate _ _ hM]
  have hlb : b.length = (b.map dropLast2).length := (List.length_map _ _).symm
  rw [hlb, drop_flatten_replicate M m _ (le_of_lt hm),
    take_flatten_replicate (M - m) _ (by omega)]

lemma thetaBarM_replicate (M m p : Nat) (b : List (List ℚ)) (hM : 0 < M)
    (hm : m < M) :
    thetaBarM ((List.replicate M b).flatten) M m p =
      colMean (b.map dropLast2) p := by
  unfold thetaBarM
  rw [grubinBlocks_replicate M m b hM hm]

lemma thetaBarDD_replicate (M p : Nat) (b : List (List ℚ)) (hM : 0 < M) :
    thetaBarDD ((List.replicate M b).flatten) M p =
      colMean (b.map dropLast2) p := by
  unfold thetaBarDD
  rw [sum_map_range]
  rw [Finset.sum_congr rfl
    (fun m hm => thetaBarM_replicate M m p b hM (Finset.mem_range.mp hm))]
  rw [Finset.sum_const, Finset.card_range, nsmul_eq_mul]
  have hM0 : (M : ℚ) ≠ 0 := Nat.cast_ne_zero.mpr (by omega)
  field_simp

lemma grubinB_replicate (M p : Nat) (b : List (List ℚ)) (hM : 0 < M) :
    grubinB ((List.replicate M b).flatten) M p = 0 := by
  unfold grubinB
  rw [sum_map_range]
  have h : ∀ m ∈ Finset.range M,
      (thetaBarM ((List.replicate M b).flatten) M m p -
        thetaBarDD ((List.replicate M b).flatten) M p) ^ 2 = 0 := by
    intro m hm
    rw [thetaBarM_replicate M m p b hM (Finset.mem_range.mp hm),
      thetaBarDD_replicate M p b hM]
    ring
  rw [Finset.sum_congr rfl h, Finset.sum_const, smul_zero, mul_zero]

lemma smSq_replicate (M m p : Nat) (b : List (List ℚ)) (hM : 0 < M)
    (hm : m < M) :
    smSq ((List.replicate M b).flatten) M m p =
      1 / ((grubinN ((List.replicate M b).flatten) M : ℚ) - 1) *
        (((b.map dropLast2).map
            (fun row => (row.getD p 0 - colMean (b.map dropLast2) p) ^ 2)).sum) := by
  unfold smSq
  rw [grubinBlocks_replicate M m b hM hm,
    thetaBarM_replicate M m p b hM hm]

lemma grubinW_replicate (M p : Nat) (b : List (List ℚ)) (hM : 0 < M) :
    grubinW ((List.replicate M b).flatten) M p =
      1 / ((grubinN ((List.replicate M b).flatten) M : ℚ) - 1) *
        (((b.map dropLast2).map
            (fun row => (row.getD p 0 - colMean (b.map dropLast2) p) ^ 2)).sum) := by
  unfold grubinW
  rw [sum_map_range]
  rw [Finset.sum_congr rfl
    (fun m hm => smSq_replicate M m p b hM (Finset.mem_range.mp hm))]
  rw [Finset.sum_const, Finset.card_range, nsmul_eq_mul]
  have hM0 : (M : ℚ) ≠ 0 := Nat.cast_ne_zero.mpr (by omega)
  field_simp

/-- C3 (amended): for a chain made of `M ≥ 2` identical contiguous blocks
`b` (retained column `p` non-constant within the block, so `W > 0`),
`grubin` gives `B = 0`, but `var_post = ((N-1)/N) * W`, NOT `W`: with `N`
the total row count `M * |b|`, `Rhat = sqrt((N-1)/N)`, which is strictly
below 1, not exactly 1. -/
theorem grubin_identical_blocks (b : List (List ℚ)) (M p : Nat)
    (hM : 2 ≤ M) (hb : b ≠ [])
    (hx : ∃ i j, i < (b.map dropLast2).length ∧ j < (b.map dropLast2).length ∧
      ((b.map dropLast2).getD i []).getD p 0 ≠
        ((b.map dropLast2).getD j []).getD p 0) :
    grubinB ((List.replicate M b).flatten) M p = 0 ∧
    0 < grubinW ((List.replicate M b).flatten) M p ∧
    grubinVarPost ((List.replicate M b).flatten) M p =
      (((M * b.length : Nat) : ℚ) - 1) / ((M * b.length : Nat) : ℚ) *
        grubinW ((List.replicate M b).flatten) M p ∧
    grubinRhatSq ((List.replicate M b).flatten) M p =
      (((M * b.length : Nat) : ℚ) - 1) / ((M * b.length : Nat) : ℚ) ∧
    grubinRhat ((List.replicate M b).flatten) M p < 1 := by
  have hM0 : 0 < M := by omega
  have hB := grubinB_replicate M p b hM0
  have hN : grubinN ((List.replicate M b).flatten) M = M * b.length :=
    grubinN_replicate M b
  have hblen : 0 < b.length := List.length_pos.mpr hb
  have hN2 : 2 ≤ M * b.length := by nlinarith
  have hNQ : (2 : ℚ) ≤ ((M * b.length : Nat) : ℚ) := by exact_mod_cast hN2
  -- W > 0
  have hW : 0 < grubinW ((List.replicate M b).flatten) M p := by
    rw [grubinW_replicate M p b hM0, hN]
    have hfac : 0 < 1 / (((M * b.length : Nat) : ℚ) - 1) := by
      apply div_pos one_pos
      linarith
    apply mul_pos hfac
    rw [sum_map_getD_rows]
    obtain ⟨i, j, hi, hj, hij⟩ := hx
    apply Finset.sum_pos'
    · intro n hn
      exact sq_nonneg _
    · by_cases hic : ((b.map dropLast2).getD i []).getD p 0 =
          colMean (b.map dropLast2) p
      · refine ⟨j, Finset.mem_range.mpr hj, ?_⟩
        have hjc : ((b.map dropLast2).getD j []).getD p 0 -
            colMean (b.map dropLast2) p ≠ 0 := by
          rw [hic] at hij
          intro h0
          apply hij
          linarith [sub_eq_zero.mp h0]
        exact lt_of_le_of_ne (sq_nonneg _) (Ne.symm (pow_ne_zero 2 hjc))
      · refine ⟨i, Finset.mem_range.mpr hi, ?_⟩
        have hic2 : ((b.map dropLast2).getD i []).getD p 0 -
            colMean (b.map dropLast2) p ≠ 0 := fun h0 => hic (by linarith [sub_eq_zero.mp h0])
        exact lt_of_le_of_ne (sq_nonneg _) (Ne.symm (pow_ne_zero 2 hic2))
  have hVP : grubinVarPost ((List.replicate M b).flatten) M p =
      (((M * b.length : Nat) : ℚ) - 1) / ((M * b.length : Nat) : ℚ) *
        grubinW ((List.replicate M b).flatten) M p := by
    unfold grubinVarPost
    rw [hB, hN, mul_zero, add_zero]
  have hRS : grubinRhatSq ((List.replicate M b).flatten) M p =
      (((M * b.length : Nat) : ℚ) - 1) / ((M * b.length : Nat) : ℚ) := by
    unfold grubinRhatSq
    rw [hVP, mul_div_assoc, div_self (ne_of_gt hW), mul_one]
  refine ⟨hB, hW, hVP, hRS, ?_⟩
  unfold grubinRhat
  rw [hRS]
  have hlt : (((M * b.length : Nat) : ℚ) - 1) / ((M * b.length : Nat) : ℚ) < 1 := by
    rw [div_lt_one (by linarith)]
    linarith
  have hge : (0 : ℚ) ≤ (((M * b.length : Nat) : ℚ) - 1) / ((M * b.length : Nat) : ℚ) := by
    apply div_nonneg <;> linarith
  calc Real.sqrt (((((M * b.length : Nat) : ℚ) - 1) / ((M * b.length : Nat) : ℚ) : ℚ) : ℝ)
      < Real.sqrt 1 := by
        apply Real.sqrt_lt_sqrt
        · exact_mod_cast Rat.cast_nonneg.mpr hge
        · calc ((((((M * b.length : Nat) : ℚ) - 1) / ((M * b.length : Nat) : ℚ)) : ℚ) : ℝ)
              < ((1 : ℚ) : ℝ) := Rat.cast_lt.mpr hlt
          _ = 1 := Rat.cast_one
    _ = 1 := Real.sqrt_one

/-- The block used in the C3 counterexample: one retained column with
values 0 and 1 (non-constant), two bookkeeping columns. -/
def blockc : List (List ℚ) := [[0, 0, 0], [1, 0, 0]]

/-- C3 (counterexample): the chain made of two copies of `blockc`
satisfies the claim's premises, yet `Rhat` is `sqrt(3/4)`, not exactly 1:
with two identical blocks of two rows, `N = 4`, `B = 0`, `W = 1/6`,
`var_post = (3/4) * W`, so `Rhat^2 = 3/4 ≠ 1`. -/
theorem grubin_identical_blocks_rhat_ne_one :
    ((blockc.map dropLast2).getD 0 []).getD 0 0 ≠
      ((blockc.map dropLast2).getD 1 []).getD 0 0 ∧
    grubinRhat ((List.replicate 2 blockc).flatten) 2 0 ≠ 1 := by
  constructor
  · norm_num [blockc, dropLast2, List.getD]
  · have h : grubinRhatSq ((List.replicate 2 blockc).flatten) 2 0 = 3 / 4 := by
      norm_num [grubinRhatSq, grubinVarPost, grubinW, grubinB, smSq,
        thetaBarM, thetaBarDD, grubinBlocks, splitBlocks, grubinData,
        grubinBurn, dropLast2, colMean, grubinN, blockc, List.range_succ,
        List.getD, List.replicate, List.flatten]
    unfold grubinRhat
    rw [h]
    intro hcon
    rw [Real.sqrt_eq_one] at hcon
    norm_num at hcon

/-- Witness for `grubin_identical_blocks` at `b = blockc`, `M = 2`,
`p = 0`. -/
theorem grubin_identical_blocks_witness :
    (2 ≤ 2 ∧ blockc ≠ [] ∧
     (∃ i j, i < (blockc.map dropLast2).length ∧
       j < (blockc.map dropLast2).length ∧
       ((blockc.map dropLast2).getD i []).getD 0 0 ≠
         ((blockc.map dropLast2).getD j []).getD 0 0)) ∧
    (grubinB ((List.replicate 2 blockc).flatten) 2 0 = 0 ∧
     0 < grubinW ((List.replicate 2 blockc).flatten) 2 0 ∧
     grubinVarPost ((List.replicate 2 blockc).flatten) 2 0 =
       (((2 * blockc.length : Nat) : ℚ) - 1) / ((2 * blockc.length : Nat) : ℚ) *
         grubinW ((List.replicate 2 blockc).flatten) 2 0 ∧
     grubinRhatSq ((List.replicate 2 blockc).flatten) 2 0 =
       (((2 * blockc.length : Nat) : ℚ) - 1) / ((2 * blockc.length : Nat) : ℚ) ∧
     grubinRhat ((List.replicate 2 blockc).flatten) 2 0 < 1) :=
  ⟨⟨by norm_num, by simp [blockc],
    ⟨0, 1, by norm_num [blockc], by norm_num [blockc],
      by norm_num [blockc, dropLast2, List.getD]⟩⟩,
   grubin_identical_blocks blockc 2 0 (by norm_num) (by simp [blockc])
     ⟨0, 1, by norm_num [blockc], by norm_num [blockc],
       by norm_num [blockc, dropLast2, List.getD]⟩⟩

/-! ## `compute_neff` (diagnostics.py lines 331-341) -/

/-- An abstract chain core: the ordered parameter names and, for each
name, the parameter's sample sequence (`core(p)` in the source). -/
structure Core where
  params : List String
  samples : String → List ℚ

/-- The bookkeeping parameters `compute_neff` skips (line 337). -/
def bookkeeping : List String :=
  ["lnpost", "lnlike", "chain_accept", "pt_chain_accept"]

/-- `compute_neff` (lines 331-341), with the external autocorrelation
estimator `integrated_time(chain, quiet=True)[0]` abstracted as `tau`.
The Python dict built by the loop is modelled as an association list;
parameter names are assumed unique (the data model's contract), so the
dict insert is an append. -/
def computeNeff (tau : List ℚ → ℚ) (core : Core) : List (String × ℚ) :=
  core.params.foldl
    (fun neffs p =>
      if p ∈ bookkeeping then neffs
      else neffs ++ [(p, ((core.samples p).length : ℚ) / tau (core.samples p))])
    []

lemma computeNeff_foldl (tau : List ℚ → ℚ) (core : Core) :
    ∀ (l : List String) (acc : List (String × ℚ)),
      l.foldl
        (fun neffs p =>
          if p ∈ bookkeeping then neffs
          else neffs ++ [(p, ((core.samples p).length : ℚ) / tau (core.samples p))])
        acc =
      acc ++ (l.filter (fun p => !(decide (p ∈ bookkeeping)))).map
        (fun p => (p, ((core.samples p).length : ℚ) / tau (core.samples p))) := by
  intro l
  induction l with
  | nil => intro acc; simp
  | cons a t ih =>
      intro acc
      by_cases ha : a ∈ bookkeeping
      · simp only [List.foldl_cons, if_pos ha, ih, List.filter_cons]
        simp [ha]
      · simp only [List.foldl_cons, if_neg ha, ih, List.filter_cons]
        simp [ha]

lemma computeNeff_eq (tau : List ℚ → ℚ) (core : Core) :
    computeNeff tau core =
      (core.params.filter (fun p => !(decide (p ∈ bookkeeping)))).map
        (fun p => (p, ((core.samples p).length : ℚ) / tau (core.samples p))) := by
  unfold computeNeff
  rw [computeNeff_foldl]
  simp

/-- C5: for every chain core (with unique parameter names, the data
model's contract), the keys of `compute_neff`'s output are exactly the
core's parameter names minus the four bookkeeping parameters, in order;
the value for each retained parameter is the sample-sequence length
divided by the estimated integrated autocorrelation time; and no
bookkeeping parameter ever appears among the output keys. -/
theorem computeNeff_contract (tau : List ℚ → ℚ) (core : Core)
    (hnd : core.params.Nodup) :
    (computeNeff tau core).map Prod.fst =
      core.params.filter (fun p => !(decide (p ∈ bookkeeping))) ∧
    (∀ p, p ∈ bookkeeping → p ∉ (computeNeff tau core).map Prod.fst) ∧
    (∀ pr, pr ∈ computeNeff tau core →
      pr.2 = ((core.samples pr.1).length : ℚ) / tau (core.samples pr.1)) := by
  rw [computeNeff_eq]
  refine ⟨?_, ?_, ?_⟩
  · rw [List.map_map]
    exact List.map_id _
  · intro p hp hmem
    rw [List.map_map] at hmem
    simp only [List.mem_map, Function.comp] at hmem
    obtain ⟨x, hx, hxe⟩ := hmem
    rw [List.mem_filter] at hx
    have := hx.2
    simp only [Bool.not_eq_true', decide_eq_false_iff_not] at this
    exact this (hxe ▸ hp)
  · intro pr hpr
    rw [List.mem_map] at hpr
    obtain ⟨x, hx, hxe⟩ := hpr
    rw [← hxe]

/-- A concrete core for the `computeNeff_contract` witness. -/
def core0 : Core where
  params := ["lnpost", "lnlike", "x1", "chain_accept", "x2", "pt_chain_accept"]
  samples := fun p => if p = "x1" then [1, 2, 3, 4] else [5, 6]

/-- Witness for `computeNeff_contract` on `core0` with `tau = length / 2`. -/
theorem computeNeff_contract_witness :
    core0.params.Nodup ∧
    ((computeNeff (fun c => (c.length : ℚ) / 2) core0).map Prod.fst =
       core0.params.filter (fun p => !(decide (p ∈ bookkeeping))) ∧
     (∀ p, p ∈ bookkeeping →
       p ∉ (computeNeff (fun c => (c.length : ℚ) / 2) core0).map Prod.fst) ∧
     (∀ pr, pr ∈ computeNeff (fun c => (c.length : ℚ) / 2) core0 →
       pr.2 = ((core0.samples pr.1).length : ℚ) /
         (fun c => (c.length : ℚ) / 2) (core0.samples pr.1))) :=
  ⟨by decide, computeNeff_contract (fun c => (c.length : ℚ) / 2) core0 (by decide)⟩

/-! ## `plot_chains` parameter selection (diagnostics.py lines 79-99) -/

/-- `for p in exclude: params.remove(p)` (lines 91-92): remove the first
occurrence of each excluded name. -/
def removeEach (params exclude : List String) : List String :=
  exclude.foldl (fun acc p => acc.erase p) params

/-- The parameter-selection prologue of `plot_chains` (lines 79-99), for a
single core with parameter list `coreParams`.  The branches are kept in
source order; the second branch reproduces the source's
`elif exclude is not None and pars is not None: raise ValueError(...)`
verbatim, including its guard. -/
def plotChainsParams (pars exclude : Option (List String))
    (coreParams : List String) : Except String (List String) :=
  if pars.isSome then .ok (pars.getD [])
  else if exclude.isSome && pars.isSome then
    .error "Please remove excluded parameters from pars."
  else if exclude.isSome then .ok (removeEach coreParams (exclude.getD []))
  else .ok coreParams

/-- C8 (code evaluated at the failing input): calling `plot_chains` with
both an explicit parameter list and an exclusion list does NOT abort: the
first branch already fires whenever `pars` is given, so the `raise
ValueError` branch (whose guard also requires `pars is not None`) is
unreachable, and the call silently proceeds with `params = pars`. -/
theorem plotChains_both_given_not_rejected :
    plotChainsParams (some ["a"]) (some ["b"]) ["a", "b", "c"] =
      .ok ["a"] := rfl

/-! ## `pp_plot` (diagnostics.py lines 440-528) -/

/-- One simulated realization (one subfolder of `chainfolder`): its
numeric folder suffix, the injected value obtained for the target
parameter from its `ans.json` (`none` when the file is absent or
unreadable), and the sampled chain of the target parameter. -/
structure Realization where
  num : Int
  ansFile : Option ℚ
  chain : List ℚ
deriving DecidableEq

instance : Inhabited Realization := ⟨⟨0, none, []⟩⟩

/-- An uncaught exception escaping `pp_plot` (here: the `ValueError`
`np.column_stack` raises on columns of different lengths). -/
inductive PPError where
  | valueError
deriving DecidableEq

/-- The numeric output `(q, pvalues, cdf, sigma)` of `pp_plot`; `sigma` is
stored squared (`sigmaSq`) so that it stays in ℚ — `realSigma` below
applies the `np.sqrt`. -/
structure PPResult where
  q : List ℚ
  pvalues : List ℚ
  cdf : List ℚ
  sigmaSq : List ℚ
deriving DecidableEq

/-- Stable insertion of a realization after all entries with a smaller or
equal numeric key. -/
def insertByNum (f : Realization) : List Realization → List Realization
  | [] => [f]
  | g :: gs => if g.num ≤ f.num then g :: insertByNum f gs else f :: g :: gs

/-- `subfolders.sort(key=lambda x: int(x.split('_')[-1]))` (line 452):
stable sort of the realizations by their numeric suffix. -/
def sortByNum (l : List Realization) : List Realization :=
  l.foldl (fun acc f => insertByNum f acc) []

/-- Stable insertion of a `(num, answer)` row after all rows with a
smaller or equal first component. -/
def insertByFst (x : Int × ℚ) : List (Int × ℚ) → List (Int × ℚ)
  | [] => [x]
  | y :: ys => if y.1 ≤ x.1 then y :: insertByFst x ys else x :: y :: ys

/-- `a = a[a[:, 0].argsort()]` (line 479): sort the `(num, answer)` rows
by their first column (the numeric keys are distinct in practice, so
stability is immaterial). -/
def sortByFst (l : List (Int × ℚ)) : List (Int × ℚ) :=
  l.foldl (fun acc x => insertByFst x acc) []

/-- The folder loop of `pp_plot` (lines 456-474).  Python iterates the
list by position; `num_list.append` happens before the `ans.json` read is
attempted, and on a read failure `subfolders.remove(folder)` shifts the
later elements left while the iteration index still advances, so the
element after a removed one is never visited.  The folder paths are
distinct, so `remove` deletes exactly the current position. -/
def scanLoop (folders : List Realization) (i : Nat)
    (nums : List Int) (answers : List ℚ) :
    List Realization × List Int × List ℚ :=
  if h : i < folders.length then
    match (folders.get ⟨i, h⟩).ansFile with
    | some a =>
        scanLoop folders (i + 1) (nums ++ [(folders.get ⟨i, h⟩).num])
          (answers ++ [a])
    | none =>
        scanLoop (folders.eraseIdx i) (i + 1)
          (nums ++ [(folders.get ⟨i, h⟩).num]) answers
  else (folders, nums, answers)
termination_by folders.length - i
decreasing_by
  · omega
  · rw [List.length_eraseIdx]
    simp only [h, if_pos]
    omega

/-- `np.linspace(0, 1, num=n)`. -/
def linspace (n : Nat) : List ℚ :=
  if n ≤ 1 then (List.range n).map (fun _ => (0 : ℚ))
  else (List.range n).map (fun i : Nat => (i : ℚ) / ((n : ℚ) - 1))

/-- `len(np.where(l < t)[0]) / len(l)`: the fraction of entries of `l`
strictly below `t`. -/
def fracBelow (l : List ℚ) (t : ℚ) : ℚ :=
  ((l.countP (fun x => decide (x < t)) : Nat) : ℚ) / ((l.length : Nat) : ℚ)

/-- Modelled from the spec: `SlicesCore` (module `la_forge.slices`, not
under `src/`) is the external chain accessor that supplies, for the
ensemble of realization directories, a 2-d sample matrix (iterations x
chains) for the single pulled parameter — one column per directory.  We
model it as the list of per-realization sample columns. -/
def slicesCoreChain (folders : List Realization) : List (List ℚ) :=
  folders.map (fun f => f.chain)

/-- The pvalue loop of `pp_plot` (lines 497-503): for each chain column
`i`, `burn = int(0.25 * len(slices.chain[:, 0]))` leading samples are
dropped and `pvalue_i` is the fraction of the remaining samples strictly
below the sorted truth `a[i, 1]` (`tau = 1`: no thinning). -/
def ppPvalues (cols : List (List ℚ)) (a : List (Int × ℚ)) : List ℚ :=
  (List.range cols.length).map
    (fun i => fracBelow
      ((cols.getD i []).drop ((cols.getD 0 []).length / 4)) (a.getD i (0, 0)).2)

/-- The empirical-CDF loop of `pp_plot` (lines 504-508): the quantile
grid `q = np.linspace(0, 1, num=len(pvalues))` and
`cdf[i] = len(np.where(pvalues < q[i])[0]) / len(pvalues)`. -/
def ppCdf (pvalues : List ℚ) : List ℚ :=
  (linspace pvalues.length).map (fun qi => fracBelow pvalues qi)

/-- Line 510 without the square root:
`(p * (1 - p) / NUM_REALS)` on the 1000-point grid `p`. -/
def ppSigmaSq (nr : Nat) : List ℚ :=
  (linspace 1000).map (fun x => x * (1 - x) / (nr : ℚ))

/-- `pp_plot` (lines 440-528), plotting dropped, with the external
collaborators abstracted: `slices` is the `SlicesCore` accessor (spec:
a 2-d matrix, one column per realization) and `parsOk` tells whether the
`pars.txt` of the first realization was readable (the bare `except`
around that read prints `Params file not found.` and returns `None`;
it also catches the `IndexError` of `subfolders[0]` when the folder list
is empty).  `.error .valueError` models the uncaught `ValueError` that
`np.column_stack` raises when `num_list` and `answer_list` have
different lengths; `.ok none` models the print-and-return-`None` paths. -/
def ppPlot (slices : List Realization → List (List ℚ)) (parsOk : Bool)
    (folders : List Realization) : Except PPError (Option PPResult) :=
  let sorted := sortByNum folders
  let scanned := scanLoop sorted 0 [] []
  let folders1 := scanned.1
  let nums := scanned.2.1
  let answers := scanned.2.2
  if nums.length ≠ answers.length then .error .valueError
  else
    let a := sortByFst (nums.zip answers)
    if parsOk = false ∨ folders1.isEmpty then .ok none
    else
      let cols := slices folders1
      if cols.length ≠ answers.length then .ok none
      else
        let pvalues := ppPvalues cols a
        .ok (some ⟨linspace pvalues.length, pvalues, ppCdf pvalues,
          ppSigmaSq (ppCdf pvalues).length⟩)

/-- `sigma = np.sqrt(p * (1 - p) / NUM_REALS)` (line 510): the square
root of the exactly computed `sigmaSq`. -/
noncomputable def realSigma (r : PPResult) : List ℝ :=
  r.sigmaSq.map (fun s => Real.sqrt ((s : ℚ) : ℝ))

/-! ## Sorting lemmas for the pp_plot pipeline -/

lemma insertByNum_length (f : Realization) (l : List Realization) :
    (insertByNum f l).length = l.length + 1 := by
  induction l with
  | nil => rfl
  | cons g gs ih =>
      by_cases h : g.num ≤ f.num
      · simp [insertByNum, h, ih]
      · simp [insertByNum, h]

lemma sortByNum_foldl_length (l : List Realization) :
    ∀ acc : List Realization,
      (l.foldl (fun acc f => insertByNum f acc) acc).length =
        acc.length + l.length := by
  induction l with
  | nil => intro acc; simp
  | cons g gs ih =>
      intro acc
      rw [List.foldl_cons, ih, insertByNum_length]
      simp only [List.length_cons]
      omega

lemma sortByNum_length (l : List Realization) :
    (sortByNum l).length = l.length := by
  unfold sortByNum
  rw [sortByNum_foldl_length]
  simp

lemma mem_insertByNum (x f : Realization) (l : List Realization) :
    x ∈ insertByNum f l ↔ x = f ∨ x ∈ l := by
  induction l with
  | nil => simp [insertByNum]
  | cons g gs ih =>
      by_cases h : g.num ≤ f.num
      · simp only [insertByNum, if_pos h, List.mem_cons, ih]
        tauto
      · simp only [insertByNum, if_neg h, List.mem_cons]

lemma mem_sortByNum_foldl (l : List Realization) :
    ∀ (acc : List Realization) (x : Realization),
      x ∈ l.foldl (fun acc f => insertByNum f acc) acc ↔ x ∈ acc ∨ x ∈ l := by
  induction l with
  | nil => intro acc x; simp
  | cons g gs ih =>
      intro acc x
      rw [List.foldl_cons, ih, mem_insertByNum]
      simp only [List.mem_cons]
      tauto

lemma mem_sortByNum (l : List Realization) (x : Realization) :
    x ∈ sortByNum l ↔ x ∈ l := by
  unfold sortByNum
  rw [mem_sortByNum_foldl]
  simp

lemma insertByNum_sorted (f : Realization) (l : List Realization)
    (hl : List.Sorted (fun a b : Realization => a.num ≤ b.num) l) :
    List.Sorted (fun a b : Realization => a.num ≤ b.num) (insertByNum f l) := by
  induction l with
  | nil => simp [insertByNum]
  | cons g gs ih =>
      rw [List.sorted_cons] at hl
      by_cases h : g.num ≤ f.num
      · simp only [insertByNum, if_pos h]
        rw [List.sorted_cons]
        refine ⟨?_, ih hl.2⟩
        intro b hb
        rcases (mem_insertByNum b f gs).mp hb with rfl | hb2
        · exact h
        · exact hl.1 b hb2
      · simp only [insertByNum, if_neg h]
        rw [List.sorted_cons]
        constructor
        · intro b hb
          rcases List.mem_cons.mp hb with rfl | hb2
          · omega
          · have h1 := hl.1 b hb2
            omega
        · rw [List.sorted_cons]
          exact hl

lemma sortByNum_foldl_sorted (l : List Realization) :
    ∀ acc : List Realization,
      List.Sorted (fun a b : Realization => a.num ≤ b.num) acc →
      List.Sorted (fun a b : Realization => a.num ≤ b.num)
        (l.foldl (fun acc f => insertByNum f acc) acc) := by
  induction l with
  | nil => intro acc h; simpa using h
  | cons g gs ih =>
      intro acc h
      rw [List.foldl_cons]
      exact ih _ (insertByNum_sorted g acc h)

lemma sortByNum_sorted (l : List Realization) :
    List.Sorted (fun a b : Realization => a.num ≤ b.num) (sortByNum l) :=
  sortByNum_foldl_sorted l [] (by simp)

lemma insertByFst_of_le (x : Int × ℚ) (l : List (Int × ℚ))
    (h : ∀ y ∈ l, y.1 ≤ x.1) : insertByFst x l = l ++ [x] := by
  induction l with
  | nil => rfl
  | cons y ys ih =>
      have hy : y.1 ≤ x.1 := h y (List.mem_cons_self _ _)
      simp only [insertByFst, if_pos hy]
      rw [ih (fun z hz => h z (List.mem_cons_of_mem _ hz))]
      rfl

lemma sortByFst_foldl_of_sorted (l : List (Int × ℚ)) :
    ∀ pre : List (Int × ℚ),
      List.Sorted (fun a b : Int × ℚ => a.1 ≤ b.1) (pre ++ l) →
      l.foldl (fun acc x => insertByFst x acc) pre = pre ++ l := by
  induction l with
  | nil => intro pre h; simp
  | cons x xs ih =>
      intro pre h
      rw [List.foldl_cons]
      have hx : ∀ y ∈ pre, y.1 ≤ x.1 := by
        intro y hy
        exact (List.pairwise_append.mp h).2.2 y hy x (List.mem_cons_self _ _)
      rw [insertByFst_of_le x pre hx]
      have hassoc : (pre ++ [x]) ++ xs = pre ++ x :: xs := by simp
      have h2 : List.Sorted (fun a b : Int × ℚ => a.1 ≤ b.1)
          ((pre ++ [x]) ++ xs) := by rw [hassoc]; exact h
      rw [ih (pre ++ [x]) h2, hassoc]

lemma sortByFst_of_sorted (l : List (Int × ℚ))
    (h : List.Sorted (fun a b : Int × ℚ => a.1 ≤ b.1) l) :
    sortByFst l = l := by
  unfold sortByFst
  have := sortByFst_foldl_of_sorted l [] (by simpa using h)
  simpa using this

/-! ## The scan loop when every `ans.json` is readable -/

lemma scanLoop_all_some :
    ∀ (k : Nat) (folders : List Realization) (i : Nat) (nums : List Int)
      (answers : List ℚ),
      folders.length - i ≤ k →
      (∀ f ∈ folders.drop i, f.ansFile.isSome) →
      scanLoop folders i nums answers =
        (folders, nums ++ (folders.drop i).map (fun f => f.num),
          answers ++ (folders.drop i).map (fun f => f.ansFile.getD 0)) := by
  intro k
  induction k with
  | zero =>
      intro folders i nums answers hk hall
      have hle : folders.length ≤ i := by omega
      rw [scanLoop, dif_neg (by omega), List.drop_eq_nil_of_le hle]
      simp
  | succ k ih =>
      intro folders i nums answers hk hall
      by_cases h : i < folders.length
      · have hdrop : folders.drop i =
            folders.get ⟨i, h⟩ :: folders.drop (i + 1) := by
          rw [List.drop_eq_getElem_cons h, List.get_eq_getElem]
        have hsome : (folders.get ⟨i, h⟩).ansFile.isSome := by
          apply hall
          rw [hdrop]
          exact List.mem_cons_self _ _
        obtain ⟨a, ha⟩ := Option.isSome_iff_exists.mp hsome
        rw [scanLoop, dif_pos h, ha]
        have hrec := ih folders (i + 1) (nums ++ [(folders.get ⟨i, h⟩).num])
          (answers ++ [a]) (by omega)
          (fun f hf => hall f (by rw [hdrop]; exact List.mem_cons_of_mem _ hf))
        refine hrec.trans ?_
        rw [hdrop]
        simp [ha]
        have hm1 : i < (List.map (fun f : Realization => f.num) folders).length := by
          simpa using h
        have hm2 : i <
            (List.map (fun f : Realization => f.ansFile.getD 0) folders).length := by
          simpa using h
        rw [List.get_eq_getElem] at ha
        constructor
        · rw [List.drop_eq_getElem_cons hm1, List.getElem_map]
        · rw [List.drop_eq_getElem_cons hm2, List.getElem_map, ha]
          rfl
      · rw [scanLoop, dif_neg h, List.drop_eq_nil_of_le (by omega)]
        simp

/-! ## Indexed reads of mapped lists -/

lemma getD_map_range_rat (g : Nat → ℚ) (n i : Nat) (hi : i < n) :
    ((List.range n).map g).getD i 0 = g i := by
  have hi2 : i < ((List.range n).map g).length := by simpa using hi
  rw [List.getD_eq_getElem _ _ hi2, List.getElem_map, List.getElem_range]

lemma getD_map_chain (l : List Realization) (j : Nat) (hj : j < l.length) :
    (l.map (fun f => f.chain)).getD j [] = (l.getD j default).chain := by
  have hj2 : j < (l.map (fun f : Realization => f.chain)).length := by
    simpa using hj
  rw [List.getD_eq_getElem _ _ hj2, List.getElem_map,
    List.getD_eq_getElem _ _ hj]

lemma getD_map_pair (l : List Realization) (j : Nat) (hj : j < l.length) :
    (l.map (fun f => (f.num, f.ansFile.getD 0))).getD j (0, 0) =
      ((l.getD j default).num, (l.getD j default).ansFile.getD 0) := by
  have hj2 : j <
      (l.map (fun f : Realization => (f.num, f.ansFile.getD 0))).length := by
    simpa using hj
  rw [List.getD_eq_getElem _ _ hj2, List.getElem_map,
    List.getD_eq_getElem _ _ hj]

lemma getD_map_rat (h : ℚ → ℚ) (l : List ℚ) (i : Nat) (hi : i < l.length) :
    (l.map h).getD i 0 = h (l.getD i 0) := by
  have hi2 : i < (l.map h).length := by simpa using hi
  rw [List.getD_eq_getElem _ _ hi2, List.getElem_map,
    List.getD_eq_getElem _ _ hi]

lemma getD_map_sqrtQ (l : List ℚ) (i : Nat) (hi : i < l.length) :
    (l.map (fun s => Real.sqrt ((s : ℚ) : ℝ))).getD i 0 =
      Real.sqrt ((l.getD i 0 : ℚ) : ℝ) := by
  have hi2 : i < (l.map (fun s : ℚ => Real.sqrt ((s : ℚ) : ℝ))).length := by
    simpa using hi
  rw [List.getD_eq_getElem _ _ hi2, List.getElem_map,
    List.getD_eq_getElem _ _ hi]

/-! ## The linspace grid -/

lemma linspace_length (n : Nat) : (linspace n).length = n := by
  unfold linspace
  by_cases h : n ≤ 1
  · rw [if_pos h, List.length_map, List.length_range]
  · rw [if_neg h, List.length_map, List.length_range]

lemma linspace_mem_bounds (n : Nat) : ∀ x ∈ linspace n, 0 ≤ x ∧ x ≤ 1 := by
  intro x hx
  unfold linspace at hx
  by_cases h : n ≤ 1
  · rw [if_pos h] at hx
    obtain ⟨i, hi, hxe⟩ := List.mem_map.mp hx
    rw [← hxe]
    norm_num
  · rw [if_neg h] at hx
    obtain ⟨i, hi, hxe⟩ := List.mem_map.mp hx
    rw [List.mem_range] at hi
    rw [← hxe]
    have h2 : (2 : ℚ) ≤ (n : ℚ) := by exact_mod_cast (by omega : 2 ≤ n)
    have hi2 : (i : ℚ) + 1 ≤ (n : ℚ) := by
      exact_mod_cast (by omega : i + 1 ≤ n)
    constructor
    · apply div_nonneg (by positivity)
      linarith
    · rw [div_le_one (by linarith)]
      linarith

/-! ## Lengths and entries of the pp_plot derived lists -/

lemma ppPvalues_length (cols : List (List ℚ)) (a : List (Int × ℚ)) :
    (ppPvalues cols a).length = cols.length := by
  rw [ppPvalues, List.length_map, List.length_range]

lemma ppPvalues_getD (cols : List (List ℚ)) (a : List (Int × ℚ)) (i : Nat)
    (hi : i < cols.length) :
    (ppPvalues cols a).getD i 0 =
      fracBelow ((cols.getD i []).drop ((cols.getD 0 []).length / 4))
        (a.getD i (0, 0)).2 :=
  getD_map_range_rat _ _ _ hi

lemma ppCdf_length (pvalues : List ℚ) :
    (ppCdf pvalues).length = pvalues.length := by
  rw [ppCdf, List.length_map, linspace_length]

lemma ppCdf_getD (pvalues : List ℚ) (i : Nat) (hi : i < pvalues.length) :
    (ppCdf pvalues).getD i 0 =
      fracBelow pvalues ((linspace pvalues.length).getD i 0) := by
  rw [ppCdf]
  exact getD_map_rat _ _ _ (by rw [linspace_length]; exact hi)

lemma ppSigmaSq_length (nr : Nat) : (ppSigmaSq nr).length = 1000 := by
  rw [ppSigmaSq, List.length_map, linspace_length]

lemma ppSigmaSq_getD (nr j : Nat) (hj : j < 1000) :
    (ppSigmaSq nr).getD j 0 =
      (linspace 1000).getD j 0 * (1 - (linspace 1000).getD j 0) / (nr : ℚ) := by
  rw [ppSigmaSq]
  exact getD_map_rat _ _ _ (by rw [linspace_length]; exact hj)

/-! ## Claims C4 and C9: the pp_plot numeric pipeline -/

/-- C4: for every ensemble in which each realization has a readable
ground-truth file and all chains have a common length `R`, `pp_plot`
discards exactly the first 25% of each chain (`int(0.25 * R)` leading
samples) and computes `pvalue_i` as the fraction of the remaining samples
strictly below the realization's injected truth, with no thinning: the
denominator is the full count `R - R/4` of post-burn-in samples. -/
theorem ppPlot_pvalues_burn (folders : List Realization) (R : Nat)
    (hall : ∀ f ∈ folders, f.ansFile.isSome)
    (hne : folders ≠ [])
    (hlen : ∀ f ∈ folders, f.chain.length = R) :
    ∃ res : PPResult,
      ppPlot slicesCoreChain true folders = .ok (some res) ∧
      res.pvalues.length = folders.length ∧
      ∀ i, i < folders.length →
        res.pvalues.getD i 0 =
          ((((((sortByNum folders).getD i default).chain.drop (R / 4)).countP
              (fun x => decide (x <
                ((sortByNum folders).getD i default).ansFile.getD 0)) : Nat) : ℚ)) /
            (((R - R / 4 : Nat) : ℚ)) ∧
        (((sortByNum folders).getD i default).chain.drop (R / 4)).length =
          R - R / 4 := by
  have hall2 : ∀ f ∈ (sortByNum folders).drop 0, f.ansFile.isSome := by
    intro f hf
    rw [List.drop_zero] at hf
    exact hall f ((mem_sortByNum folders f).mp hf)
  have hscan := scanLoop_all_some (sortByNum folders).length
    (sortByNum folders) 0 [] [] (by omega) hall2
  simp only [List.drop_zero, List.nil_append] at hscan
  have hne3 : sortByNum folders ≠ [] := by
    intro h0
    apply hne
    have hl := sortByNum_length folders
    rw [h0] at hl
    exact List.length_eq_zero.mp hl.symm
  have hpos : 0 < (sortByNum folders).length :=
    List.length_pos.mpr hne3
  have hmemsf : ∀ j, j < (sortByNum folders).length →
      (sortByNum folders).getD j default ∈ folders := by
    intro j hj
    apply (mem_sortByNum folders _).mp
    rw [List.getD_eq_getElem _ _ hj]
    exact List.getElem_mem _
  have ha : sortByFst (((sortByNum folders).map (fun f => f.num)).zip
      ((sortByNum folders).map (fun f => f.ansFile.getD 0))) =
      (sortByNum folders).map (fun f => (f.num, f.ansFile.getD 0)) := by
    rw [List.zip_map']
    apply sortByFst_of_sorted
    rw [List.Sorted, List.pairwise_map]
    exact sortByNum_sorted folders
  simp only [ppPlot, hscan]
  rw [if_neg (by simp)]
  rw [if_neg (by simp [List.isEmpty_iff, hne3])]
  rw [if_neg (by simp [slicesCoreChain])]
  refine ⟨_, rfl, ?_, ?_⟩
  · rw [ppPvalues_length]
    simp [slicesCoreChain, sortByNum_length]
  · intro i hi
    have hisf : i < (sortByNum folders).length := by
      rw [sortByNum_length]; exact hi
    have hicols : i < (slicesCoreChain (sortByNum folders)).length := by
      simpa [slicesCoreChain] using hisf
    rw [ppPvalues_getD _ _ _ hicols]
    simp only [slicesCoreChain]
    rw [ha, getD_map_pair _ _ hisf, getD_map_chain _ _ hisf,
      getD_map_chain _ _ hpos]
    have hR0 : (((sortByNum folders).getD 0 default).chain).length = R :=
      hlen _ (hmemsf 0 hpos)
    have hRi : (((sortByNum folders).getD i default).chain).length = R :=
      hlen _ (hmemsf i hisf)
    rw [hR0]
    unfold fracBelow
    rw [List.length_drop, hRi]
    exact ⟨rfl, rfl⟩

set_option maxRecDepth 4096 in
/-- C9: for every ensemble with readable truths and common chain length,
`pp_plot` evaluates the empirical CDF of the pvalues on a quantile grid
`q = linspace(0, 1, ensemble size)` inside `[0,1]`, with
`cdf(q_i) = #(pvalues < q_i) / NUM_REALIZATIONS`, and computes the
confidence-band width on an independent 1000-point grid `p` as
`sigma(p_j) = sqrt(p_j * (1 - p_j) / NUM_REALIZATIONS)`, where
`NUM_REALIZATIONS` is the ensemble size. -/
theorem ppPlot_calibration_grids (folders : List Realization) (R : Nat)
    (hall : ∀ f ∈ folders, f.ansFile.isSome)
    (hne : folders ≠ [])
    (hlen : ∀ f ∈ folders, f.chain.length = R) :
    ∃ res : PPResult,
      ppPlot slicesCoreChain true folders = .ok (some res) ∧
      res.q = linspace folders.length ∧
      res.q.length = folders.length ∧
      (∀ x ∈ res.q, 0 ≤ x ∧ x ≤ 1) ∧
      res.cdf.length = folders.length ∧
      (∀ i, i < folders.length →
        res.cdf.getD i 0 =
          ((res.pvalues.countP (fun pv => decide (pv < res.q.getD i 0)) : Nat) : ℚ) /
            ((folders.length : Nat) : ℚ)) ∧
      (linspace 1000).length = 1000 ∧
      res.sigmaSq.length = 1000 ∧
      (∀ j, j < 1000 →
        (realSigma res).getD j 0 =
          Real.sqrt ((((linspace 1000).getD j 0 * (1 - (linspace 1000).getD j 0) /
            ((folders.length : Nat) : ℚ) : ℚ)) : ℝ)) := by
  have hall2 : ∀ f ∈ (sortByNum folders).drop 0, f.ansFile.isSome := by
    intro f hf
    rw [List.drop_zero] at hf
    exact hall f ((mem_sortByNum folders f).mp hf)
  have hscan := scanLoop_all_some (sortByNum folders).length
    (sortByNum folders) 0 [] [] (by omega) hall2
  simp only [List.drop_zero, List.nil_append] at hscan
  have hne3 : sortByNum folders ≠ [] := by
    intro h0
    apply hne
    have hl := sortByNum_length folders
    rw [h0] at hl
    exact List.length_eq_zero.mp hl.symm
  simp only [ppPlot, hscan]
  rw [if_neg (by simp)]
  rw [if_neg (by simp [List.isEmpty_iff, hne3])]
  rw [if_neg (by simp [slicesCoreChain])]
  refine ⟨_, rfl, ?_, ?_, ?_, ?_, ?_, ?_, ?_, ?_⟩
  · rw [ppPvalues_length]
    simp [slicesCoreChain, sortByNum_length]
  · rw [linspace_length, ppPvalues_length]
    simp [slicesCoreChain, sortByNum_length]
  · intro x hx
    exact linspace_mem_bounds _ x hx
  · rw [ppCdf_length, ppPvalues_length]
    simp [slicesCoreChain, sortByNum_length]
  · intro i hi
    have hip : i < (ppPvalues (slicesCoreChain (sortByNum folders))
        (sortByFst (((sortByNum folders).map (fun f => f.num)).zip
          ((sortByNum folders).map (fun f => f.ansFile.getD 0))))).length := by
      rw [ppPvalues_length]
      simpa [slicesCoreChain, sortByNum_length] using hi
    rw [ppCdf_getD _ _ hip]
    unfold fracBelow
    congr 1
    rw [ppPvalues_length]
    simp [slicesCoreChain, sortByNum_length]
  · exact linspace_length 1000
  · exact ppSigmaSq_length _
  · intro j hj
    simp only [realSigma]
    rw [getD_map_sqrtQ _ _ (by rw [ppSigmaSq_length]; exact hj)]
    rw [ppSigmaSq_getD _ _ hj]
    congr 2
    congr 1
    rw [ppCdf_length, ppPvalues_length]
    simp [slicesCoreChain, sortByNum_length]

/-- C6: whenever the number of ensemble chains the accessor supplies
differs from the number of ground-truth values, `pp_plot` reports the
mismatch and returns no numeric result (`None`) instead of truncating or
failing with an unrelated indexing error (the check at lines 493-496 runs
before any per-chain indexing). -/
theorem ppPlot_count_mismatch (slices : List Realization → List (List ℚ))
    (folders : List Realization)
    (hall : ∀ f ∈ folders, f.ansFile.isSome)
    (hne : folders ≠ [])
    (hmm : (slices (sortByNum folders)).length ≠ folders.length) :
    ppPlot slices true folders = .ok none := by
  have hall2 : ∀ f ∈ (sortByNum folders).drop 0, f.ansFile.isSome := by
    intro f hf
    rw [List.drop_zero] at hf
    exact hall f ((mem_sortByNum folders f).mp hf)
  have hscan := scanLoop_all_some (sortByNum folders).length
    (sortByNum folders) 0 [] [] (by omega) hall2
  simp only [List.drop_zero, List.nil_append] at hscan
  have hne3 : sortByNum folders ≠ [] := by
    intro h0
    apply hne
    have hl := sortByNum_length folders
    rw [h0] at hl
    exact List.length_eq_zero.mp hl.symm
  simp only [ppPlot, hscan]
  rw [if_neg (by simp)]
  rw [if_neg (by simp [List.isEmpty_iff, hne3])]
  rw [if_pos (by rw [List.length_map, sortByNum_length]; exact hmm)]

/-! ## Claim C7: a realization with an unreadable ans.json -/

/-- First realization of the C7 scenario: truth readable. -/
def mr0 : Realization := ⟨0, some 1, [0, 1, 2, 3]⟩

/-- Second realization of the C7 scenario: `ans.json` unreadable. -/
def mr1 : Realization := ⟨1, none, [0, 1, 2, 3]⟩

/-- Third realization of the C7 scenario: truth readable, but never
visited because the removal of `mr1` shifts it into the already-consumed
position. -/
def mr2 : Realization := ⟨2, some 1, [0, 1, 2, 3]⟩

/-- C7 (code evaluated at the failing input): with three realizations
whose middle one has an unreadable `ans.json`, the folder loop appends
`mr1`'s numeric id to `num_list` before the read fails, and the
`subfolders.remove` shifts `mr2` out of the iteration, so the loop ends
with two entries in `num_list` but only one answer and `mr2` never read;
`np.column_stack` then raises a `ValueError`, so `pp_plot` produces no
result at all instead of skipping only the affected realization. -/
theorem ppPlot_missing_ans_crashes :
    scanLoop (sortByNum [mr0, mr1, mr2]) 0 [] [] =
      ([mr0, mr2], [0, 1], [1]) ∧
    ppPlot slicesCoreChain true [mr0, mr1, mr2] = .error .valueError := by
  have hsort : sortByNum [mr0, mr1, mr2] = [mr0, mr1, mr2] := by
    simp [sortByNum, insertByNum, mr0, mr1, mr2]
  have hscan : scanLoop [mr0, mr1, mr2] 0 [] [] = ([mr0, mr2], [0, 1], [1]) := by
    rw [scanLoop]; simp [mr0, mr1, mr2]
    rw [scanLoop]; simp [mr0, mr1, mr2, List.eraseIdx]
    rw [scanLoop]; simp [mr0, mr1, mr2]
  constructor
  · rw [hsort]; exact hscan
  · simp only [ppPlot, hsort, hscan]
    norm_num

/-! ## Witness inputs for the pp_plot theorems -/

/-- A realization with truth 2 and chain `0,1,2,3`. -/
def wr0 : Realization := ⟨0, some 2, [0, 1, 2, 3]⟩

/-- A realization with truth 1 and chain `1,2,3,4`. -/
def wr1 : Realization := ⟨1, some 1, [1, 2, 3, 4]⟩

/-- Witness for `ppPlot_pvalues_burn` on the two-realization ensemble
`[wr0, wr1]` with `R = 4`. -/
theorem ppPlot_pvalues_burn_witness :
    ((∀ f ∈ [wr0, wr1], f.ansFile.isSome) ∧ [wr0, wr1] ≠ [] ∧
      (∀ f ∈ [wr0, wr1], f.chain.length = 4)) ∧
    (∃ res : PPResult,
      ppPlot slicesCoreChain true [wr0, wr1] = .ok (some res) ∧
      res.pvalues.length = [wr0, wr1].length ∧
      ∀ i, i < [wr0, wr1].length →
        res.pvalues.getD i 0 =
          ((((((sortByNum [wr0, wr1]).getD i default).chain.drop (4 / 4)).countP
              (fun x => decide (x <
                ((sortByNum [wr0, wr1]).getD i default).ansFile.getD 0)) : Nat) : ℚ)) /
            (((4 - 4 / 4 : Nat) : ℚ)) ∧
        (((sortByNum [wr0, wr1]).getD i default).chain.drop (4 / 4)).length =
          4 - 4 / 4) :=
  ⟨⟨by decide, by decide, by decide⟩,
   ppPlot_pvalues_burn [wr0, wr1] 4 (by decide) (by decide) (by decide)⟩

/-- Witness for `ppPlot_calibration_grids` on `[wr0, wr1]`, `R = 4`. -/
theorem ppPlot_calibration_grids_witness :
    ((∀ f ∈ [wr0, wr1], f.ansFile.isSome) ∧ [wr0, wr1] ≠ [] ∧
      (∀ f ∈ [wr0, wr1], f.chain.length = 4)) ∧
    (∃ res : PPResult,
      ppPlot slicesCoreChain true [wr0, wr1] = .ok (some res) ∧
      res.q = linspace [wr0, wr1].length ∧
      res.q.length = [wr0, wr1].length ∧
      (∀ x ∈ res.q, 0 ≤ x ∧ x ≤ 1) ∧
      res.cdf.length = [wr0, wr1].length ∧
      (∀ i, i < [wr0, wr1].length →
        res.cdf.getD i 0 =
          ((res.pvalues.countP (fun pv => decide (pv < res.q.getD i 0)) : Nat) : ℚ) /
            (([wr0, wr1].length : Nat) : ℚ)) ∧
      (linspace 1000).length = 1000 ∧
      res.sigmaSq.length = 1000 ∧
      (∀ j, j < 1000 →
        (realSigma res).getD j 0 =
          Real.sqrt ((((linspace 1000).getD j 0 * (1 - (linspace 1000).getD j 0) /
            (([wr0, wr1].length : Nat) : ℚ) : ℚ)) : ℝ))) :=
  ⟨⟨by decide, by decide, by decide⟩,
   ppPlot_calibration_grids [wr0, wr1] 4 (by decide) (by decide) (by decide)⟩

/-- Witness for `ppPlot_count_mismatch`: two realizations with readable
truths, but an accessor that supplies three chain columns. -/
theorem ppPlot_count_mismatch_witness :
    ((∀ f ∈ [wr0, wr1], f.ansFile.isSome) ∧ [wr0, wr1] ≠ [] ∧
      ((fun _ : List Realization => ([[], [], []] : List (List ℚ)))
          (sortByNum [wr0, wr1])).length ≠ [wr0, wr1].length) ∧
    ppPlot (fun _ : List Realization => ([[], [], []] : List (List ℚ)))
      true [wr0, wr1] = .ok none :=
  ⟨⟨by decide, by decide, by decide⟩,
   ppPlot_count_mismatch (fun _ => [[], [], []]) [wr0, wr1]
     (by decide) (by decide) (by decide)⟩
